import Mathlib

/-
Verification of src/utilities.py (gradient-based text reconstruction utilities).

Tensors are modelled over the exact reals: a flattened gradient tensor is a
List ℝ, an embedding matrix is a List (List ℝ) (rows are vocabulary entries),
and a batched embedding tensor is a List (List (List ℝ)) (batch, sequence
position, embedding dimension).  Python runtime failures (assert False,
ZeroDivisionError, TypeError) are modelled with an Except error monad.
-/

namespace Utilities

/-- Runtime failures of the Python code that the model tracks. -/
inductive PyErr where
  | assertionError
  | zeroDivisionError
  | typeError
  | runtimeError
  deriving DecidableEq, Repr

/-- A vocabulary embedding matrix: one row per token. -/
abbrev T2 := List (List ℝ)

/-- A batched embedding tensor: batch x sequence x embedding dimension. -/
abbrev T3 := List (List (List ℝ))

/-- Elementwise product summed, i.e. the Python (g1 * g2).sum(). -/
noncomputable def dot (x y : List ℝ) : ℝ := (List.zipWith (· * ·) x y).sum

/-- Elementwise difference, i.e. the Python g1 - g2. -/
def sub (x y : List ℝ) : List ℝ := List.zipWith (· - ·) x y

/-- Sum of squares, i.e. the Python t.square().sum(). -/
noncomputable def sqSum (x : List ℝ) : ℝ := (x.map (fun a => a ^ 2)).sum

/-- Sum of absolute values, i.e. the Python torch.abs(t).sum(). -/
noncomputable def absSum (x : List ℝ) : ℝ := (x.map (fun a => |a|)).sum

/-- Euclidean norm of a flattened tensor, the Python t.view(-1).norm(p=2). -/
noncomputable def norm2 (x : List ℝ) : ℝ := Real.sqrt (sqSum x)

/-- The configuration object: the fields of args used by grad_dist. -/
structure Args where
  loss : String
  tag_factor : ℝ

/-- Distance contribution of one present gradient pair inside the loop of
grad_dist (utilities.py lines 15-22); an unrecognized metric hits the
assert False. -/
noncomputable def pairDist (a : Args) (g1 g2 : List ℝ) : Except PyErr ℝ :=
  if a.loss = "cos" then
    .ok (1 - dot g1 g2 / (norm2 g1 * norm2 g2))
  else if a.loss = "dlg" then
    .ok (sqSum (sub g1 g2))
  else if a.loss = "tag" then
    .ok (sqSum (sub g1 g2) + a.tag_factor * absSum (sub g1 g2))
  else
    .error .assertionError

/-- One iteration of the loop of grad_dist: pairs with an absent side are
skipped, present pairs add their distance to ret and bump n_g. -/
noncomputable def gradDistStep (a : Args) (acc : Except PyErr (ℝ × ℕ))
    (p : Option (List ℝ) × Option (List ℝ)) : Except PyErr (ℝ × ℕ) :=
  match acc with
  | .error e => .error e
  | .ok (ret, n) =>
    match p with
    | (some g1, some g2) =>
      match pairDist a g1 g2 with
      | .ok v => .ok (ret + v, n + 1)
      | .error e => .error e
    | _ => .ok (ret, n)

/-- Shallow embedding of grad_dist (utilities.py lines 10-26).  The two
gradient collections are zipped, absent-sided pairs are skipped, and for the
cosine metric the accumulated sum is divided by the number of present pairs
(a ZeroDivisionError when that count is zero, as in Python). -/
noncomputable def grad_dist (grads1 grads2 : List (Option (List ℝ))) (args : Args) :
    Except PyErr ℝ :=
  match (grads1.zip grads2).foldl (gradDistStep args) (.ok (0, 0)) with
  | .error e => .error e
  | .ok (ret, n_g) =>
    if args.loss = "cos" then
      if n_g = 0 then .error .zeroDivisionError else .ok (ret / n_g)
    else
      .ok ret

/-- A zipped gradient pair is present when neither side is absent. -/
def presentPair (p : Option (List ℝ) × Option (List ℝ)) : Bool :=
  p.1.isSome && p.2.isSome

/-- Boolean test for the error case of the Except monad. -/
def isErr {α : Type} : Except PyErr α → Bool
  | .error _ => true
  | .ok _ => false

theorem dot_comm (x y : List ℝ) : dot x y = dot y x := by
  unfold dot
  rw [List.zipWith_comm_of_comm _ mul_comm]

theorem sqSum_sub_comm (x y : List ℝ) : sqSum (sub x y) = sqSum (sub y x) := by
  unfold sqSum sub
  rw [List.map_zipWith, List.map_zipWith,
    List.zipWith_comm_of_comm _ (fun a b => by ring)]

theorem absSum_sub_comm (x y : List ℝ) : absSum (sub x y) = absSum (sub y x) := by
  unfold absSum sub
  rw [List.map_zipWith, List.map_zipWith,
    List.zipWith_comm_of_comm _ (fun a b => abs_sub_comm a b)]

theorem pairDist_comm (a : Args) (g1 g2 : List ℝ) :
    pairDist a g1 g2 = pairDist a g2 g1 := by
  unfold pairDist
  rw [dot_comm, sqSum_sub_comm, absSum_sub_comm, mul_comm (norm2 g1)]

theorem gradDistStep_swap (a : Args) (acc : Except PyErr (ℝ × ℕ))
    (p : Option (List ℝ) × Option (List ℝ)) :
    gradDistStep a acc p.swap = gradDistStep a acc p := by
  rcases acc with e | ⟨ret, n⟩
  · rfl
  · rcases p with ⟨g1 | g1, g2 | g2⟩ <;> simp [gradDistStep, Prod.swap, pairDist_comm]

theorem grad_dist_comm (g1 g2 : List (Option (List ℝ))) (a : Args) :
    grad_dist g1 g2 a = grad_dist g2 g1 a := by
  unfold grad_dist
  rw [← List.zip_swap g1 g2, List.foldl_map]
  have h : (fun acc p => gradDistStep a acc (Prod.swap p)) = gradDistStep a := by
    funext acc p
    exact gradDistStep_swap a acc p
  rw [h]

theorem gradDist_loop_error (a : Args) (e : PyErr)
    (l : List (Option (List ℝ) × Option (List ℝ))) :
    l.foldl (gradDistStep a) (.error e) = .error e := by
  induction l with
  | nil => rfl
  | cons p t ih => simpa [gradDistStep] using ih

theorem gradDist_loop_skip (a : Args) (acc : Except PyErr (ℝ × ℕ))
    (l : List (Option (List ℝ) × Option (List ℝ)))
    (h : ∀ p ∈ l, p.1.isNone = true ∨ p.2.isNone = true) :
    l.foldl (gradDistStep a) acc = acc := by
  induction l generalizing acc with
  | nil => rfl
  | cons p t ih =>
    have hp := h p (List.mem_cons_self p t)
    have hstep : gradDistStep a acc p = acc := by
      rcases acc with e | ⟨ret, n⟩
      · rfl
      · rcases p with ⟨g1 | g1, g2 | g2⟩ <;> simp_all [gradDistStep]
    rw [List.foldl_cons, hstep]
    exact ih acc (fun q hq => h q (List.mem_cons_of_mem p hq))

theorem pairDist_bad (a : Args) (g1 g2 : List ℝ)
    (h : a.loss ∉ (["cos", "dlg", "tag"] : List String)) :
    pairDist a g1 g2 = .error .assertionError := by
  simp only [List.mem_cons, List.not_mem_nil, or_false, not_or] at h
  simp [pairDist, h.1, h.2.1, h.2.2]

theorem gradDist_loop_bad (a : Args) (r : ℝ) (n : ℕ)
    (l : List (Option (List ℝ) × Option (List ℝ)))
    (h : a.loss ∉ (["cos", "dlg", "tag"] : List String)) :
    l.foldl (gradDistStep a) (.ok (r, n)) =
      if l.any presentPair then .error .assertionError else .ok (r, n) := by
  induction l generalizing r n with
  | nil => rfl
  | cons p t ih =>
    rcases p with ⟨g1 | g1, g2 | g2⟩
    · simpa [gradDistStep, presentPair] using ih r n
    · simpa [gradDistStep, presentPair] using ih r n
    · simpa [gradDistStep, presentPair] using ih r n
    · rw [List.foldl_cons]
      have : gradDistStep a (.ok (r, n)) (some g1, some g2) = .error .assertionError := by
        simp [gradDistStep, pairDist_bad a g1 g2 h]
      rw [this, gradDist_loop_error]
      simp [presentPair]

theorem pairDist_good (a : Args) (g1 g2 : List ℝ)
    (h : a.loss = "cos" ∨ a.loss = "dlg" ∨ a.loss = "tag") :
    ∃ v, pairDist a g1 g2 = .ok v := by
  rcases h with h | h | h
  · exact ⟨1 - dot g1 g2 / (norm2 g1 * norm2 g2), by simp [pairDist, h]⟩
  · exact ⟨sqSum (sub g1 g2), by simp [pairDist, h]⟩
  · exact ⟨sqSum (sub g1 g2) + a.tag_factor * absSum (sub g1 g2), by simp [pairDist, h]⟩

theorem gradDist_loop_good (a : Args) (r : ℝ) (n : ℕ)
    (l : List (Option (List ℝ) × Option (List ℝ)))
    (h : a.loss = "cos" ∨ a.loss = "dlg" ∨ a.loss = "tag") :
    ∃ r', l.foldl (gradDistStep a) (.ok (r, n)) = .ok (r', n + l.countP presentPair) := by
  induction l generalizing r n with
  | nil => exact ⟨r, rfl⟩
  | cons p t ih =>
    rcases p with ⟨g1 | g1, g2 | g2⟩
    · simpa [gradDistStep, presentPair, List.countP_cons] using ih r n
    · simpa [gradDistStep, presentPair, List.countP_cons] using ih r n
    · simpa [gradDistStep, presentPair, List.countP_cons] using ih r n
    · obtain ⟨v, hv⟩ := pairDist_good a g1 g2 h
      rw [List.foldl_cons]
      have hstep : gradDistStep a (.ok (r, n)) (some g1, some g2) = .ok (r + v, n + 1) := by
        simp [gradDistStep, hv]
      rw [hstep]
      obtain ⟨r', hr'⟩ := ih (r + v) (n + 1)
      refine ⟨r', ?_⟩
      rw [hr']
      simp [presentPair, List.countP_cons]
      omega

/-- Claim C3 counterexample scaffold: the claim asserts that some pair of
equal-length, all-present gradient collections witnesses asymmetry of the
cosine metric of grad_dist. -/
def cosAsymmetryWitnessExists : Prop :=
  ∃ (g1 g2 : List (Option (List ℝ))) (tf : ℝ),
    g1.length = g2.length ∧
    (∀ p ∈ g1.zip g2, p.1.isSome = true ∧ p.2.isSome = true) ∧
    grad_dist g1 g2 ⟨"cos", tf⟩ ≠ grad_dist g2 g1 ⟨"cos", tf⟩

/-- Claim C3 (counterexample to the claim as stated): no gradient pair at all
witnesses asymmetry of the cosine metric, i.e. the cosine branch of grad_dist
is symmetric, contrary to the claim that it is not. -/
theorem c3_cos_asymmetry_refuted : ¬ cosAsymmetryWitnessExists := by
  rintro ⟨g1, g2, tf, -, -, hne⟩
  exact hne (grad_dist_comm g1 g2 ⟨"cos", tf⟩)

/-- Claim C3 (amended): grad_dist is symmetric under swapping its two
gradient-collection arguments for the squared-L2 (dlg) and hybrid (tag)
metrics, and also for the cosine (cos) metric. -/
theorem c3_grad_dist_symmetric (g1 g2 : List (Option (List ℝ))) (tf : ℝ) :
    grad_dist g1 g2 ⟨"dlg", tf⟩ = grad_dist g2 g1 ⟨"dlg", tf⟩ ∧
    grad_dist g1 g2 ⟨"tag", tf⟩ = grad_dist g2 g1 ⟨"tag", tf⟩ ∧
    grad_dist g1 g2 ⟨"cos", tf⟩ = grad_dist g2 g1 ⟨"cos", tf⟩ :=
  ⟨grad_dist_comm g1 g2 _, grad_dist_comm g1 g2 _, grad_dist_comm g1 g2 _⟩

/-- Claim C6: when every zipped pair of the two gradient collections has at
least one absent side, grad_dist returns 0 for the dlg and tag metrics and
fails with a ZeroDivisionError for the cos metric (the averaging denominator
n_g is zero). -/
theorem c6_all_absent_pairs (g1 g2 : List (Option (List ℝ))) (tf : ℝ)
    (h : ∀ p ∈ g1.zip g2, p.1.isNone = true ∨ p.2.isNone = true) :
    grad_dist g1 g2 ⟨"dlg", tf⟩ = .ok 0 ∧
    grad_dist g1 g2 ⟨"tag", tf⟩ = .ok 0 ∧
    grad_dist g1 g2 ⟨"cos", tf⟩ = .error .zeroDivisionError := by
  refine ⟨?_, ?_, ?_⟩ <;>
    simp [grad_dist, gradDist_loop_skip _ _ _ h]

/-- Witness for C6 at a concrete input: with pairs (None, [2.0]) and
([1.0], None) the dlg and tag metrics return 0 and the cos metric raises
ZeroDivisionError. -/
theorem c6_witness :
    grad_dist [none, some [(1 : ℝ)]] [some [(2 : ℝ)], none] ⟨"dlg", 1⟩ = .ok 0 ∧
    grad_dist [none, some [(1 : ℝ)]] [some [(2 : ℝ)], none] ⟨"tag", 1⟩ = .ok 0 ∧
    grad_dist [none, some [(1 : ℝ)]] [some [(2 : ℝ)], none] ⟨"cos", 1⟩ =
      .error .zeroDivisionError :=
  c6_all_absent_pairs [none, some [(1 : ℝ)]] [some [(2 : ℝ)], none] 1 (by decide)

/-- Index of the first minimal entry of a row, the torch t.min(dim) index
(ties broken by first occurrence). -/
noncomputable def argmin : List ℝ → ℕ
  | [] => 0
  | [_] => 0
  | x :: y :: t =>
    if x ≤ (y :: t).getD (argmin (y :: t)) 0 then 0 else argmin (y :: t) + 1

/-- Implementation of the slice assignment d[:, :, unused_tokens] = 1e9 on one
row of the distance matrix, walking the row with its running index. -/
def sentinelRowAux (unused : List ℕ) : ℕ → List ℝ → List ℝ
  | _, [] => []
  | v, x :: t =>
    (if v ∈ unused then (1e9 : ℝ) else x) :: sentinelRowAux unused (v + 1) t

/-- The slice assignment d[:, :, unused_tokens] = 1e9 on one row. -/
def sentinelRow (unused : List ℕ) (row : List ℝ) : List ℝ :=
  sentinelRowAux unused 0 row

/-- Batched pairwise matrix: entry (b, i, j) is g applied to x[b][i] and
y[b][j]; the common shape of the distance matrices of get_closest_tokens. -/
noncomputable def pairwiseM (g : List ℝ → List ℝ → ℝ) (x y : T3) : T3 :=
  x.zipWith (fun xb yb => xb.map fun xi => yb.map fun yj => g xi yj) y

/-- Batched pairwise Euclidean distance, torch.cdist(x, y, p=2): entry
(b, i, j) is the L2 distance between x[b][i] and y[b][j]. -/
noncomputable def cdist (x y : T3) : T3 :=
  pairwiseM (fun xi yj => Real.sqrt (sqSum (sub xi yj))) x y

/-- The cos branch of get_closest_tokens: d = -dp / (norm1 * norm2) with
dp = torch.bmm(inputs, vocab.transpose), entrywise the negated cosine
similarity between x[b][i] and y[b][j]. -/
noncomputable def cosDistM (x y : T3) : T3 :=
  pairwiseM (fun xi yj => -dot xi yj / (norm2 xi * norm2 yj)) x y

/-- Elementwise division of a vector by a scalar. -/
noncomputable def vdiv (x : List ℝ) (c : ℝ) : List ℝ := x.map (· / c)

/-- One entry of the grad_align branch: the direction from the current
embedding x to the candidate embedding w is normalized (with the 1e-8 guard)
and compared against the normalized negated gradient; the alignment is then
negated so that smaller is better. -/
noncomputable def gradAlignEntry (x g w : List ℝ) : ℝ :=
  -dot (vdiv (sub w x) (norm2 (sub w x) + 1e-8))
       (vdiv (g.map (fun a => -a)) (norm2 g + 1e-8))

/-- The grad_align branch of get_closest_tokens over the whole batch.  The
subtraction embeddings_weight - inputs_embeds.unsqueeze(2) at line 58
broadcasts the repeated vocabulary of shape (B, V, E), right-padded to
(1, B, V, E), against the inputs of shape (B, S, 1, E); this succeeds only
when B = S or B = 1 or S = 1 and otherwise raises a broadcasting
RuntimeError.  When B = S or B = 1 the repeat makes every copy of the
vocabulary identical, so after the view the entry at (b, s, v) is the
intended alignment of input position (b, s) with vocabulary entry v.  When
S = 1 < B the broadcast yields shape (B, B, V, E) and the view reshapes it
to (B, 1, B*V, E): the single position of each sequence gets its V
alignment values duplicated B times.  A tensor has one sequence length, so
the model reads S from the first batch row; ragged lists are not tensors
and do not arise from the callers. -/
noncomputable def gradAlignM (x y g : T3) : Except PyErr T3 :=
  if x.length = (x.headD []).length ∨ x.length = 1 then
    .ok ((x.zip g).zipWith (fun p yb =>
      (p.1.zip p.2).map fun q => yb.map fun w => gradAlignEntry q.1 q.2 w) y)
  else if (x.headD []).length = 1 then
    .ok ((x.zip g).map fun p =>
      (p.1.zip p.2).map fun q =>
        (List.replicate x.length
          ((y.headD []).map fun w => gradAlignEntry q.1 q.2 w)).flatten)
  else
    .error .runtimeError

/-- Metric dispatch of get_closest_tokens (utilities.py lines 46-79): l2 and
cos always succeed, grad_align requires gradients and is then subject to the
broadcasting rule of gradAlignM, and anything else reaches assert False. -/
noncomputable def distMatrix (inputs_embeds : T3) (vocabB : T3) (grads : Option T3)
    (metric : String) : Except PyErr T3 :=
  if metric = "l2" then
    .ok (cdist inputs_embeds vocabB)
  else if metric = "cos" then
    .ok (cosDistM inputs_embeds vocabB)
  else
    match grads with
    | some g =>
      if metric = "grad_align" then gradAlignM inputs_embeds vocabB g
      else .error .assertionError
    | none => .error .assertionError

/-- Shallow embedding of get_closest_tokens (utilities.py lines 29-87): the
vocabulary matrix is repeated across the batch, a full distance matrix is
computed under the selected metric, excluded token ids are overwritten with
the sentinel 1e9, and the per-position argmin indices are returned together
with the distance matrix. -/
noncomputable def get_closest_tokens (inputs_embeds : T3) (unused_tokens : List ℕ)
    (embeddings_weight : T2) (grads : Option T3) (metric : String) :
    Except PyErr (T3 × List (List ℕ)) :=
  let vocabB := List.replicate inputs_embeds.length embeddings_weight
  match distMatrix inputs_embeds vocabB grads metric with
  | .error e => .error e
  | .ok d0 =>
    let d := d0.map fun m => m.map (sentinelRow unused_tokens)
    .ok (d, d.map fun m => m.map argmin)

theorem argmin_lt (l : List ℝ) (h : l ≠ []) : argmin l < l.length := by
  induction l with
  | nil => exact absurd rfl h
  | cons x t ih =>
    cases t with
    | nil => simp [argmin]
    | cons y t' =>
      rw [argmin]
      split
      · simp
      · have := ih (by simp)
        simpa using Nat.succ_lt_succ this

theorem argmin_getD_le (l : List ℝ) (i : ℕ) (h : i < l.length) :
    l.getD (argmin l) 0 ≤ l.getD i 0 := by
  induction l generalizing i with
  | nil => simp at h
  | cons x t ih =>
    cases t with
    | nil =>
      cases i with
      | zero => simp [argmin]
      | succ j => simp at h
    | cons y t' =>
      rw [argmin]
      split
      · rename_i hx
        cases i with
        | zero => simp
        | succ j =>
          have hj : j < (y :: t').length := by simpa using h
          calc (x :: y :: t').getD 0 0 = x := rfl
            _ ≤ (y :: t').getD (argmin (y :: t')) 0 := hx
            _ ≤ (y :: t').getD j 0 := ih j hj
            _ = (x :: y :: t').getD (j + 1) 0 := (List.getD_cons_succ).symm
      · rename_i hx
        push_neg at hx
        cases i with
        | zero =>
          calc (x :: y :: t').getD (argmin (y :: t') + 1) 0
              = (y :: t').getD (argmin (y :: t')) 0 := List.getD_cons_succ
            _ ≤ x := le_of_lt hx
            _ = (x :: y :: t').getD 0 0 := rfl
        | succ j =>
          have hj : j < (y :: t').length := by simpa using h
          calc (x :: y :: t').getD (argmin (y :: t') + 1) 0
              = (y :: t').getD (argmin (y :: t')) 0 := List.getD_cons_succ
            _ ≤ (y :: t').getD j 0 := ih j hj
            _ = (x :: y :: t').getD (j + 1) 0 := (List.getD_cons_succ).symm

theorem argmin_eq_of_strict (l : List ℝ) (k : ℕ) (hk : k < l.length)
    (h : ∀ j, j < l.length → j ≠ k → l.getD k 0 < l.getD j 0) : argmin l = k := by
  by_contra hne
  have hne' : argmin l ≠ k := hne
  have hlt : argmin l < l.length := argmin_lt l (by
    intro hnil
    rw [hnil] at hk
    simp at hk)
  have h1 : l.getD k 0 < l.getD (argmin l) 0 := h (argmin l) hlt hne'
  have h2 : l.getD (argmin l) 0 ≤ l.getD k 0 := argmin_getD_le l k hk
  exact absurd (lt_of_le_of_lt h2 h1) (lt_irrefl _)

theorem sentinelRowAux_length (u : List ℕ) (v : ℕ) (row : List ℝ) :
    (sentinelRowAux u v row).length = row.length := by
  induction row generalizing v with
  | nil => rfl
  | cons x t ih => simp [sentinelRowAux, ih]

theorem sentinelRowAux_getD (u : List ℕ) (v : ℕ) (row : List ℝ) (j : ℕ)
    (h : j < row.length) :
    (sentinelRowAux u v row).getD j 0 =
      if v + j ∈ u then (1e9 : ℝ) else row.getD j 0 := by
  induction row generalizing v j with
  | nil => simp at h
  | cons x t ih =>
    cases j with
    | zero => simp [sentinelRowAux]
    | succ j' =>
      have hj : j' < t.length := by simpa using h
      have := ih (v + 1) j' hj
      simp only [sentinelRowAux, List.getD_cons_succ]
      rw [this]
      have harith : v + 1 + j' = v + (j' + 1) := by omega
      rw [harith]

theorem sentinelRow_length (u : List ℕ) (row : List ℝ) :
    (sentinelRow u row).length = row.length :=
  sentinelRowAux_length u 0 row

theorem sentinelRow_getD_mem (u : List ℕ) (row : List ℝ) (j : ℕ)
    (h : j < row.length) (hj : j ∈ u) : (sentinelRow u row).getD j 0 = 1e9 := by
  rw [sentinelRow, sentinelRowAux_getD u 0 row j h]
  simp [hj]

theorem sentinelRow_getD_not_mem (u : List ℕ) (row : List ℝ) (j : ℕ)
    (h : j < row.length) (hj : j ∉ u) :
    (sentinelRow u row).getD j 0 = row.getD j 0 := by
  rw [sentinelRow, sentinelRowAux_getD u 0 row j h]
  simp [hj]

/-- Claim C2 (amended): the token index returned by get_closest_tokens for a
position is never a member of the excluded set, provided at least one
non-excluded vocabulary entry of that position's row of the returned distance
matrix lies strictly below the sentinel 1e9.  (Without that proviso the claim
fails: see the counterexample.) -/
theorem c2_excluded_not_selected (inputs_embeds : T3) (unused_tokens : List ℕ)
    (embeddings_weight : T2) (grads : Option T3) (metric : String)
    (d : T3) (idxs : List (List ℕ)) (b s : ℕ) (db : List (List ℝ)) (row : List ℝ)
    (ib : List ℕ) (idx : ℕ)
    (hok : get_closest_tokens inputs_embeds unused_tokens embeddings_weight grads
      metric = .ok (d, idxs))
    (hdb : d[b]? = some db) (hrow : db[s]? = some row)
    (hib : idxs[b]? = some ib) (hidx : ib[s]? = some idx)
    (hex : ∃ v, v < row.length ∧ v ∉ unused_tokens ∧ row.getD v 0 < 1e9) :
    idx ∉ unused_tokens := by
  rw [get_closest_tokens] at hok
  cases hm : distMatrix inputs_embeds
      (List.replicate inputs_embeds.length embeddings_weight) grads metric with
  | error e => rw [hm] at hok; cases hok
  | ok d0 =>
    rw [hm] at hok
    simp only [Except.ok.injEq, Prod.mk.injEq] at hok
    obtain ⟨hd_eq, hidx_eq⟩ := hok
    -- the returned index is the argmin of the returned row
    have hidxs_d : idxs = d.map fun m => m.map argmin := by
      rw [← hd_eq, ← hidx_eq]
    have hib' : ib = db.map argmin := by
      rw [hidxs_d] at hib
      rw [List.getElem?_map, hdb] at hib
      simpa using hib.symm
    have hidx' : idx = argmin row := by
      rw [hib'] at hidx
      rw [List.getElem?_map, hrow] at hidx
      simpa using hidx.symm
    -- the returned row is a sentinel-overwritten row
    have hrow_sent : ∃ r0, row = sentinelRow unused_tokens r0 := by
      rw [← hd_eq] at hdb
      rw [List.getElem?_map] at hdb
      cases hm0 : d0[b]? with
      | none => rw [hm0] at hdb; cases hdb
      | some m0 =>
        rw [hm0] at hdb
        have hdb2 : db = m0.map (sentinelRow unused_tokens) := by simpa using hdb.symm
        rw [hdb2, List.getElem?_map] at hrow
        cases hr0 : m0[s]? with
        | none => rw [hr0] at hrow; cases hrow
        | some r0 =>
          rw [hr0] at hrow
          exact ⟨r0, by simpa using hrow.symm⟩
    obtain ⟨r0, hr0⟩ := hrow_sent
    obtain ⟨v, hvlen, hvnot, hvlt⟩ := hex
    intro hmem
    have hrow_ne : row ≠ [] := by
      intro hnil
      rw [hnil] at hvlen
      simp at hvlen
    have hargmin_lt : argmin row < row.length := argmin_lt row hrow_ne
    have hlen0 : argmin row < r0.length := by
      rw [← sentinelRow_length unused_tokens r0, ← hr0]
      exact hargmin_lt
    have hmem' : argmin row ∈ unused_tokens := by
      rw [hidx'] at hmem
      exact hmem
    have hsent : row.getD (argmin row) 0 = 1e9 := by
      calc row.getD (argmin row) 0
          = (sentinelRow unused_tokens r0).getD (argmin row) 0 := by rw [← hr0]
        _ = 1e9 := sentinelRow_getD_mem unused_tokens r0 (argmin row) hlen0 hmem'
    have hle : row.getD (argmin row) 0 ≤ row.getD v 0 := argmin_getD_le row v hvlen
    rw [hsent] at hle
    exact absurd (lt_of_le_of_lt hle hvlt) (lt_irrefl _)

/-- Claim C2 (counterexample to the claim as stated): when every vocabulary
token is excluded, the sentinel makes all distances equal and the argmin
still returns an excluded token id, so the unconditional claim is false. -/
theorem c2_counterexample :
    get_closest_tokens [[[(1 : ℝ)]]] [0] [[(1 : ℝ)]] none "cos" =
      .ok ([[[(1e9 : ℝ)]]], [[0]]) ∧ (0 : ℕ) ∈ ([0] : List ℕ) :=
  ⟨rfl, by decide⟩

/-- Witness for C2 at a concrete input: token 1 is excluded, token 0 has
distance -1 < 1e9, and the selected index 0 is not excluded. -/
theorem c2_witness :
    get_closest_tokens [[[(1 : ℝ)]]] [1] [[(1 : ℝ)], [(1 : ℝ)]] none "cos" =
      .ok ([[[(-1 : ℝ), (1e9 : ℝ)]]], [[0]]) ∧ (0 : ℕ) ∉ ([1] : List ℕ) := by
  have hn : norm2 [(1 : ℝ)] = 1 := by simp [norm2, sqSum]
  have hd : dot [(1 : ℝ)] [(1 : ℝ)] = 1 := by simp [dot]
  have hle : (-1 : ℝ) ≤ 1e9 := by norm_num
  have hok : get_closest_tokens [[[(1 : ℝ)]]] [1] [[(1 : ℝ)], [(1 : ℝ)]] none "cos" =
      .ok ([[[(-1 : ℝ), (1e9 : ℝ)]]], [[0]]) := by
    simp [get_closest_tokens, distMatrix, cosDistM, pairwiseM, sentinelRow,
      sentinelRowAux, argmin, hn, hd, hle]
  refine ⟨hok, ?_⟩
  exact c2_excluded_not_selected [[[(1 : ℝ)]]] [1] [[(1 : ℝ)], [(1 : ℝ)]] none "cos"
    [[[(-1 : ℝ), (1e9 : ℝ)]]] [[0]] 0 0 [[(-1 : ℝ), (1e9 : ℝ)]] [(-1 : ℝ), (1e9 : ℝ)]
    [0] 0 hok rfl rfl rfl rfl
    ⟨0, by norm_num, by decide, by norm_num⟩

/-- Claim C5 (counterexample to the claim as stated): grad_dist with an
unrecognized metric name and empty gradient collections returns 0 without
reaching the assertion, so grad_dist does not assert on every call whose
metric name is not cos, dlg or tag. -/
theorem c5_counterexample :
    grad_dist ([] : List (Option (List ℝ))) [] ⟨"xyz", 0⟩ = .ok 0 := rfl

/-- Claim C5 (amended): grad_dist fails exactly when the metric is
unrecognized and at least one zipped pair is present on both sides (the
assertion), or when the metric is cos and no pair is present (a
ZeroDivisionError); get_closest_tokens hits the assertion exactly when the
metric is not l2, cos or grad_align, or is grad_align with no gradients
supplied; and the grad_align metric with gradients has a further failure
mode the claim omits: a broadcasting RuntimeError exactly when the batch
size differs from the sequence length and both exceed one. -/
theorem c5_error_modes :
    (∀ (g1 g2 : List (Option (List ℝ))) (a : Args),
      isErr (grad_dist g1 g2 a) = true ↔
        (a.loss ∉ (["cos", "dlg", "tag"] : List String) ∧
          (g1.zip g2).any presentPair = true) ∨
        (a.loss = "cos" ∧ (g1.zip g2).any presentPair = false)) ∧
    (∀ (inputs_embeds : T3) (unused_tokens : List ℕ) (embeddings_weight : T2)
      (grads : Option T3) (metric : String),
      get_closest_tokens inputs_embeds unused_tokens embeddings_weight grads
          metric = .error .assertionError ↔
        (metric ∉ (["l2", "cos", "grad_align"] : List String) ∨
          (metric = "grad_align" ∧ grads = none))) ∧
    (∀ (inputs_embeds : T3) (unused_tokens : List ℕ) (embeddings_weight : T2)
      (g : T3),
      get_closest_tokens inputs_embeds unused_tokens embeddings_weight (some g)
          "grad_align" = .error .runtimeError ↔
        (inputs_embeds.length ≠ (inputs_embeds.headD []).length ∧
          inputs_embeds.length ≠ 1 ∧ (inputs_embeds.headD []).length ≠ 1)) := by
  refine ⟨?_, ?_, ?_⟩
  · intro g1 g2 a
    by_cases hcos : a.loss = "cos"
    · obtain ⟨r', hr'⟩ := gradDist_loop_good a 0 0 (g1.zip g2) (Or.inl hcos)
      by_cases hnp : (g1.zip g2).countP presentPair = 0
      · have hany : (g1.zip g2).any presentPair = false :=
          List.any_eq_false.mpr (List.countP_eq_zero.mp hnp)
        simp only [grad_dist]
        rw [hr']
        simp [hcos, hnp, isErr, hany]
      · obtain ⟨x, hx, hpx⟩ := List.countP_pos_iff.mp (Nat.pos_of_ne_zero hnp)
        have hany : (g1.zip g2).any presentPair = true :=
          List.any_eq_true.mpr ⟨x, hx, hpx⟩
        simp only [grad_dist]
        rw [hr']
        simp [hcos, hnp, isErr, hany]
    · by_cases hdlg : a.loss = "dlg"
      · obtain ⟨r', hr'⟩ := gradDist_loop_good a 0 0 (g1.zip g2) (Or.inr (Or.inl hdlg))
        simp only [grad_dist]
        rw [hr']
        simp [hdlg, isErr]
      · by_cases htag : a.loss = "tag"
        · obtain ⟨r', hr'⟩ :=
            gradDist_loop_good a 0 0 (g1.zip g2) (Or.inr (Or.inr htag))
          simp only [grad_dist]
          rw [hr']
          simp [htag, isErr]
        · have hbad : a.loss ∉ (["cos", "dlg", "tag"] : List String) := by
            simp [hcos, hdlg, htag]
          cases hany : (g1.zip g2).any presentPair with
          | false =>
            simp only [grad_dist]
            rw [gradDist_loop_bad a 0 0 (g1.zip g2) hbad, hany]
            simp [isErr, hcos, hbad]
          | true =>
            simp only [grad_dist]
            rw [gradDist_loop_bad a 0 0 (g1.zip g2) hbad, hany]
            simp [isErr, hbad]
  · intro inputs_embeds unused_tokens embeddings_weight grads metric
    by_cases hl2 : metric = "l2"
    · simp [get_closest_tokens, distMatrix, hl2]
    · by_cases hco : metric = "cos"
      · simp [get_closest_tokens, distMatrix, hco]
      · by_cases hga : metric = "grad_align"
        · cases grads with
          | none => simp [get_closest_tokens, distMatrix, hga]
          | some g =>
            by_cases h1 : inputs_embeds.length = (inputs_embeds.headD []).length ∨
                inputs_embeds.length = 1
            · obtain ⟨v, hv⟩ : ∃ v, gradAlignM inputs_embeds
                  (List.replicate inputs_embeds.length embeddings_weight) g = .ok v := by
                unfold gradAlignM
                rw [if_pos h1]
                exact ⟨_, rfl⟩
              simp [get_closest_tokens, distMatrix, hga, hv]
            · by_cases h2 : (inputs_embeds.headD []).length = 1
              · obtain ⟨v, hv⟩ : ∃ v, gradAlignM inputs_embeds
                    (List.replicate inputs_embeds.length embeddings_weight) g = .ok v := by
                  unfold gradAlignM
                  rw [if_neg h1, if_pos h2]
                  exact ⟨_, rfl⟩
                simp [get_closest_tokens, distMatrix, hga, hv]
              · have hv : gradAlignM inputs_embeds
                    (List.replicate inputs_embeds.length embeddings_weight) g =
                      .error .runtimeError := by
                  unfold gradAlignM
                  rw [if_neg h1, if_neg h2]
                simp [get_closest_tokens, distMatrix, hga, hv]
        · cases grads with
          | none => simp [get_closest_tokens, distMatrix, hl2, hco, hga]
          | some g => simp [get_closest_tokens, distMatrix, hl2, hco, hga]
  · intro inputs_embeds unused_tokens embeddings_weight g
    by_cases h1 : inputs_embeds.length = (inputs_embeds.headD []).length ∨
        inputs_embeds.length = 1
    · obtain ⟨v, hv⟩ : ∃ v, gradAlignM inputs_embeds
          (List.replicate inputs_embeds.length embeddings_weight) g = .ok v := by
        unfold gradAlignM
        rw [if_pos h1]
        exact ⟨_, rfl⟩
      simp [get_closest_tokens, distMatrix, hv]
      rw [List.headD_eq_head?_getD] at h1
      tauto
    · by_cases h2 : (inputs_embeds.headD []).length = 1
      · obtain ⟨v, hv⟩ : ∃ v, gradAlignM inputs_embeds
            (List.replicate inputs_embeds.length embeddings_weight) g = .ok v := by
          unfold gradAlignM
          rw [if_neg h1, if_pos h2]
          exact ⟨_, rfl⟩
        simp [get_closest_tokens, distMatrix, hv]
        rw [List.headD_eq_head?_getD] at h2
        tauto
      · have hv : gradAlignM inputs_embeds
            (List.replicate inputs_embeds.length embeddings_weight) g =
              .error .runtimeError := by
          unfold gradAlignM
          rw [if_neg h1, if_neg h2]
        simp [get_closest_tokens, distMatrix, hv]
        push_neg at h1
        rw [List.headD_eq_head?_getD] at h1 h2
        exact ⟨h1.1, h1.2, h2⟩

theorem sqSum_nonneg (x : List ℝ) : 0 ≤ sqSum x := by
  refine List.sum_nonneg ?_
  intro y hy
  obtain ⟨a, -, rfl⟩ := List.mem_map.mp hy
  exact sq_nonneg a

theorem sqSum_sub_self (x : List ℝ) : sqSum (sub x x) = 0 := by
  induction x with
  | nil => rfl
  | cons a t ih =>
    have h : sqSum (sub (a :: t) (a :: t)) = (a - a) ^ 2 + sqSum (sub t t) := by
      simp [sub, sqSum]
    rw [h, ih, sub_self]
    simp

theorem sqSum_sub_pos (x w : List ℝ) (hlen : w.length = x.length) (hne : w ≠ x) :
    0 < sqSum (sub x w) := by
  induction x generalizing w with
  | nil =>
    cases w with
    | nil => exact absurd rfl hne
    | cons b u => simp at hlen
  | cons a t ih =>
    cases w with
    | nil => simp at hlen
    | cons b u =>
      have hsq : sqSum (sub (a :: t) (b :: u)) = (a - b) ^ 2 + sqSum (sub t u) := by
        simp [sub, sqSum]
      rw [hsq]
      by_cases hab : b = a
      · have hut : u ≠ t := by
          intro hut
          exact hne (by rw [hab, hut])
        have hlen' : u.length = t.length := by simpa using hlen
        exact add_pos_of_nonneg_of_pos (sq_nonneg _) (ih u hlen' hut)
      · have : 0 < (a - b) ^ 2 := by
          apply sq_pos_of_ne_zero
          intro hz
          exact hab (by linarith [sub_eq_zero.mp hz])
        exact add_pos_of_pos_of_nonneg this (sqSum_nonneg _)

theorem dot_self (x : List ℝ) : dot x x = sqSum x := by
  induction x with
  | nil => rfl
  | cons a t ih => simp [dot, sqSum] at ih ⊢; rw [ih]; ring_nf

theorem norm2_mul_self (x : List ℝ) : norm2 x * norm2 x = sqSum x :=
  Real.mul_self_sqrt (sqSum_nonneg x)

theorem norm2_pos (x : List ℝ) (h : 0 < sqSum x) : 0 < norm2 x :=
  Real.sqrt_pos.mpr h

theorem pairwiseM_row (g : List ℝ → List ℝ → ℝ) (inputs : T3) (vocab : T2)
    (b s : ℕ) (bs : List (List ℝ)) (x : List ℝ)
    (hb : inputs[b]? = some bs) (hs : bs[s]? = some x) :
    (pairwiseM g inputs (List.replicate inputs.length vocab))[b]? =
      some (bs.map fun xi => vocab.map fun yj => g xi yj) ∧
    (bs.map fun xi => vocab.map fun yj => g xi yj)[s]? =
      some (vocab.map fun yj => g x yj) := by
  obtain ⟨hblen, hbeq⟩ := List.getElem?_eq_some.mp hb
  constructor
  · simp [pairwiseM, List.getElem?_zipWith, hb, List.getElem?_replicate, hblen]
    exact congrArg _ hbeq
  · rw [List.getElem?_map, hs]
    rfl

theorem get_closest_tokens_entry (inputs : T3) (unused : List ℕ) (vocab : T2)
    (grads : Option T3) (metric : String) (d0 : T3) (b s : ℕ)
    (m : List (List ℝ)) (row0 : List ℝ)
    (hm : distMatrix inputs (List.replicate inputs.length vocab) grads metric = .ok d0)
    (hd0b : d0[b]? = some m) (hd0s : m[s]? = some row0) :
    ∃ d idxs, get_closest_tokens inputs unused vocab grads metric = .ok (d, idxs) ∧
      (d.getD b []).getD s [] = sentinelRow unused row0 ∧
      (idxs.getD b []).getD s 0 = argmin (sentinelRow unused row0) := by
  refine ⟨d0.map fun mm => mm.map (sentinelRow unused),
    (d0.map fun mm => mm.map (sentinelRow unused)).map fun mm => mm.map argmin,
    ?_, ?_, ?_⟩
  · simp only [get_closest_tokens]
    rw [hm]
  · simp [List.getD_eq_getElem?_getD, List.getElem?_map, hd0b, hd0s]
  · simp [List.getD_eq_getElem?_getD, List.getElem?_map, hd0b, hd0s]

theorem mem_of_getElem_eq_some {α : Type} {l : List α} {n : ℕ} {a : α}
    (h : l[n]? = some a) : a ∈ l := by
  obtain ⟨hlt, rfl⟩ := List.getElem?_eq_some.mp h
  exact List.getElem_mem hlt

theorem mapRow_getD (g' : List ℝ → ℝ) (vocab : T2) (j : ℕ) (wj : List ℝ)
    (h : vocab[j]? = some wj) : (vocab.map g').getD j 0 = g' wj := by
  rw [List.getD_eq_getElem?_getD, List.getElem?_map, h]
  rfl

/-- Claim C7 (amended): for an input embedding equal to the vocabulary entry
at index k (not excluded, all entries of the input's dimension), the l2
metric of get_closest_tokens selects index k with recorded distance 0
provided every other entry differs from the input, and the cos metric
selects index k with recorded distance -1 (the negated cosine similarity,
not 0) provided the input is nonzero, every entry is nonzero, and every
other entry has cosine similarity strictly below 1. -/
theorem c7_exact_match (inputs_embeds : T3) (unused_tokens : List ℕ)
    (embeddings_weight : T2) (grads : Option T3) (b s k : ℕ)
    (bs : List (List ℝ)) (x : List ℝ)
    (hb : inputs_embeds[b]? = some bs) (hs : bs[s]? = some x)
    (hk : embeddings_weight[k]? = some x) (hkex : k ∉ unused_tokens)
    (hdim : ∀ w ∈ embeddings_weight, w.length = x.length) :
    ((∀ j w, embeddings_weight[j]? = some w → j ≠ k → w ≠ x) →
      ∃ d idxs, get_closest_tokens inputs_embeds unused_tokens embeddings_weight
          grads "l2" = .ok (d, idxs) ∧
        (idxs.getD b []).getD s 0 = k ∧ ((d.getD b []).getD s []).getD k 0 = 0) ∧
    (0 < sqSum x → (∀ w ∈ embeddings_weight, 0 < sqSum w) →
      (∀ j w, embeddings_weight[j]? = some w → j ≠ k →
        dot x w < norm2 x * norm2 w) →
      ∃ d idxs, get_closest_tokens inputs_embeds unused_tokens embeddings_weight
          grads "cos" = .ok (d, idxs) ∧
        (idxs.getD b []).getD s 0 = k ∧ ((d.getD b []).getD s []).getD k 0 = -1) := by
  have hklt : k < embeddings_weight.length := (List.getElem?_eq_some.mp hk).1
  constructor
  · -- l2 metric
    intro hothers
    set gf : List ℝ → List ℝ → ℝ := fun xi yj => Real.sqrt (sqSum (sub xi yj)) with hgf
    have hm : distMatrix inputs_embeds
        (List.replicate inputs_embeds.length embeddings_weight) grads "l2" =
        .ok (pairwiseM gf inputs_embeds
          (List.replicate inputs_embeds.length embeddings_weight)) := by
      simp [distMatrix, cdist]
    obtain ⟨hd0b, hd0s⟩ := pairwiseM_row gf inputs_embeds embeddings_weight b s bs x hb hs
    obtain ⟨d, idxs, hok, hdrow, hirow⟩ := get_closest_tokens_entry inputs_embeds
      unused_tokens embeddings_weight grads "l2" _ b s _ _ hm hd0b hd0s
    set row0 : List ℝ := embeddings_weight.map fun yj => gf x yj with hrow0
    have hrow0len : row0.length = embeddings_weight.length := by
      rw [hrow0]; exact List.length_map _ _
    have hklt' : k < row0.length := by rw [hrow0len]; exact hklt
    have hvalk : (sentinelRow unused_tokens row0).getD k 0 = 0 := by
      rw [sentinelRow_getD_not_mem unused_tokens row0 k hklt' hkex,
        mapRow_getD _ _ _ _ hk]
      show Real.sqrt (sqSum (sub x x)) = 0
      rw [sqSum_sub_self, Real.sqrt_zero]
    have hstrictmin : ∀ j, j < (sentinelRow unused_tokens row0).length → j ≠ k →
        (sentinelRow unused_tokens row0).getD k 0 <
          (sentinelRow unused_tokens row0).getD j 0 := by
      intro j hjlt hjk
      rw [sentinelRow_length] at hjlt
      rw [hvalk]
      by_cases hju : j ∈ unused_tokens
      · rw [sentinelRow_getD_mem unused_tokens row0 j hjlt hju]
        norm_num
      · rw [sentinelRow_getD_not_mem unused_tokens row0 j hjlt hju]
        have hjv : j < embeddings_weight.length := by rw [← hrow0len]; exact hjlt
        have hj : embeddings_weight[j]? = some embeddings_weight[j] :=
          List.getElem?_eq_getElem hjv
        rw [mapRow_getD _ _ _ _ hj]
        show 0 < Real.sqrt (sqSum (sub x embeddings_weight[j]))
        refine Real.sqrt_pos.mpr (sqSum_sub_pos x _ ?_ ?_)
        · exact hdim _ (mem_of_getElem_eq_some hj)
        · exact hothers j _ hj hjk
    have hargmin : argmin (sentinelRow unused_tokens row0) = k :=
      argmin_eq_of_strict _ k (by rw [sentinelRow_length]; exact hklt') hstrictmin
    refine ⟨d, idxs, hok, ?_, ?_⟩
    · rw [hirow, hargmin]
    · rw [hdrow, hvalk]
  · -- cos metric
    intro hx hw hstrict
    set gf : List ℝ → List ℝ → ℝ :=
      fun xi yj => -dot xi yj / (norm2 xi * norm2 yj) with hgf
    have hm : distMatrix inputs_embeds
        (List.replicate inputs_embeds.length embeddings_weight) grads "cos" =
        .ok (pairwiseM gf inputs_embeds
          (List.replicate inputs_embeds.length embeddings_weight)) := by
      simp [distMatrix, cosDistM]
    obtain ⟨hd0b, hd0s⟩ := pairwiseM_row gf inputs_embeds embeddings_weight b s bs x hb hs
    obtain ⟨d, idxs, hok, hdrow, hirow⟩ := get_closest_tokens_entry inputs_embeds
      unused_tokens embeddings_weight grads "cos" _ b s _ _ hm hd0b hd0s
    set row0 : List ℝ := embeddings_weight.map fun yj => gf x yj with hrow0
    have hrow0len : row0.length = embeddings_weight.length := by
      rw [hrow0]; exact List.length_map _ _
    have hklt' : k < row0.length := by rw [hrow0len]; exact hklt
    have hvalk : (sentinelRow unused_tokens row0).getD k 0 = -1 := by
      rw [sentinelRow_getD_not_mem unused_tokens row0 k hklt' hkex,
        mapRow_getD _ _ _ _ hk]
      show -dot x x / (norm2 x * norm2 x) = -1
      rw [dot_self, norm2_mul_self, neg_div, div_self (ne_of_gt hx)]
    have hstrictmin : ∀ j, j < (sentinelRow unused_tokens row0).length → j ≠ k →
        (sentinelRow unused_tokens row0).getD k 0 <
          (sentinelRow unused_tokens row0).getD j 0 := by
      intro j hjlt hjk
      rw [sentinelRow_length] at hjlt
      rw [hvalk]
      by_cases hju : j ∈ unused_tokens
      · rw [sentinelRow_getD_mem unused_tokens row0 j hjlt hju]
        norm_num
      · rw [sentinelRow_getD_not_mem unused_tokens row0 j hjlt hju]
        have hjv : j < embeddings_weight.length := by rw [← hrow0len]; exact hjlt
        have hj : embeddings_weight[j]? = some embeddings_weight[j] :=
          List.getElem?_eq_getElem hjv
        rw [mapRow_getD _ _ _ _ hj]
        show (-1 : ℝ) < -dot x embeddings_weight[j] /
          (norm2 x * norm2 embeddings_weight[j])
        have hN : 0 < norm2 x * norm2 embeddings_weight[j] :=
          mul_pos (norm2_pos x hx)
            (norm2_pos _ (hw _ (mem_of_getElem_eq_some hj)))
        have h1 : dot x embeddings_weight[j] /
            (norm2 x * norm2 embeddings_weight[j]) < 1 :=
          (div_lt_one hN).mpr (hstrict j _ hj hjk)
        rw [neg_div]
        linarith
    have hargmin : argmin (sentinelRow unused_tokens row0) = k :=
      argmin_eq_of_strict _ k (by rw [sentinelRow_length]; exact hklt') hstrictmin
    refine ⟨d, idxs, hok, ?_, ?_⟩
    · rw [hirow, hargmin]
    · rw [hdrow, hvalk]

/-- Claim C7 (counterexample to the claim as stated): for the input [1, 0]
with an exact (non-excluded) match at vocabulary index 0, the cos metric
does select index 0, but the recorded distance is -1, not approximately 0. -/
theorem c7_counterexample :
    get_closest_tokens [[[(1 : ℝ), 0]]] ([] : List ℕ) [[(1 : ℝ), 0], [(0 : ℝ), 1]]
      none "cos" = .ok ([[[(-1 : ℝ), 0]]], [[0]]) ∧ ((-1 : ℝ) ≠ 0) := by
  have h1 : norm2 [(1 : ℝ), 0] = 1 := by
    simp [norm2, sqSum]
  have h4 : norm2 [(0 : ℝ), 1] = 1 := by
    simp [norm2, sqSum]
  have h2 : dot [(1 : ℝ), 0] [(1 : ℝ), 0] = 1 := by
    norm_num [dot]
  have h3 : dot [(1 : ℝ), 0] [(0 : ℝ), 1] = 0 := by
    norm_num [dot]
  have hle : (-1 : ℝ) ≤ 0 := by norm_num
  constructor
  · simp [get_closest_tokens, distMatrix, cosDistM, pairwiseM, sentinelRow,
      sentinelRowAux, argmin, h1, h2, h3, h4, hle]
  · norm_num

/-- Witness for C7 at a concrete input: vocabulary [[1,0],[0,1]], input
[1,0] matching index 0; l2 selects index 0 with distance 0 and cos selects
index 0 with distance -1. -/
theorem c7_witness :
    (∃ d idxs, get_closest_tokens [[[(1 : ℝ), 0]]] ([] : List ℕ)
        [[(1 : ℝ), 0], [(0 : ℝ), 1]] none "l2" = .ok (d, idxs) ∧
      (idxs.getD 0 []).getD 0 0 = 0 ∧ ((d.getD 0 []).getD 0 []).getD 0 0 = 0) ∧
    (∃ d idxs, get_closest_tokens [[[(1 : ℝ), 0]]] ([] : List ℕ)
        [[(1 : ℝ), 0], [(0 : ℝ), 1]] none "cos" = .ok (d, idxs) ∧
      (idxs.getD 0 []).getD 0 0 = 0 ∧ ((d.getD 0 []).getD 0 []).getD 0 0 = -1) := by
  have hdim : ∀ w ∈ ([[(1 : ℝ), 0], [(0 : ℝ), 1]] : T2),
      w.length = ([(1 : ℝ), 0] : List ℝ).length := by
    intro w hw
    rcases List.mem_cons.mp hw with rfl | hw'
    · rfl
    · rcases List.mem_cons.mp hw' with rfl | hw''
      · rfl
      · simp at hw''
  have hmain := c7_exact_match [[[(1 : ℝ), 0]]] ([] : List ℕ)
    [[(1 : ℝ), 0], [(0 : ℝ), 1]] none 0 0 0 [[(1 : ℝ), 0]] [(1 : ℝ), 0]
    rfl rfl rfl (by simp) hdim
  constructor
  · refine hmain.1 ?_
    intro j w hj hjk
    cases j with
    | zero => exact absurd rfl hjk
    | succ j' =>
      cases j' with
      | zero =>
        have hw : w = [(0 : ℝ), 1] := by
          have : some [(0 : ℝ), 1] = some w := hj
          exact (Option.some.injEq _ _ ▸ this).symm
        rw [hw]
        intro hcontra
        have h5 := congrArg (fun l => l.getD 0 (5 : ℝ)) hcontra
        simp at h5
      | succ j'' => simp at hj
  · refine hmain.2 ?_ ?_ ?_
    · norm_num [sqSum]
    · intro w hw
      rcases List.mem_cons.mp hw with rfl | hw'
      · norm_num [sqSum]
      · rcases List.mem_cons.mp hw' with rfl | hw''
        · norm_num [sqSum]
        · simp at hw''
    · intro j w hj hjk
      cases j with
      | zero => exact absurd rfl hjk
      | succ j' =>
        cases j' with
        | zero =>
          have hw : w = [(0 : ℝ), 1] := by
            have : some [(0 : ℝ), 1] = some w := hj
            exact (Option.some.injEq _ _ ▸ this).symm
          rw [hw]
          have hd : dot [(1 : ℝ), 0] [(0 : ℝ), 1] = 0 := by norm_num [dot]
          have hn1 : norm2 [(1 : ℝ), 0] = 1 := by simp [norm2, sqSum]
          have hn2 : norm2 [(0 : ℝ), 1] = 1 := by simp [norm2, sqSum]
          rw [hd, hn1, hn2]
          norm_num
        | succ j'' => simp at hj

/-- Shallow embedding of fix_special_tokens (utilities.py lines 110-118).
The scalar entries of an embedding row are irrelevant to the control flow,
so the row type V is a parameter.  The token-id constants come from
constants.py, which is not part of the sources; they are passed as
arguments, and the vocabulary is a total indexing function.  Position -1 of
a Python tensor is modelled as position length - 1; a pad boundary of 0
makes pads[sen_id] - 1 equal to -1 in Python, which is the last position. -/
def fix_special_tokens {V : Type} (BERT_CLS_TOKEN BERT_SEP_TOKEN BERT_PAD_TOKEN : ℕ)
    (x_embeds : List (List V)) (bert_embeddings_weight : ℕ → V)
    (pads : Option (List ℕ)) : List (List V) :=
  let x1 := x_embeds.map fun sen => sen.set 0 (bert_embeddings_weight BERT_CLS_TOKEN)
  match pads with
  | some ps =>
    x1.mapIdx fun sen_id sen =>
      let p := ps.getD sen_id 0
      let sen2 := sen.mapIdx fun j e =>
        if p ≤ j then bert_embeddings_weight BERT_PAD_TOKEN else e
      if p = 0 then sen2.set (sen2.length - 1) (bert_embeddings_weight BERT_SEP_TOKEN)
      else sen2.set (p - 1) (bert_embeddings_weight BERT_SEP_TOKEN)
  | none =>
    if x1.length = 1 then
      x1.map fun sen => sen.set (sen.length - 1) (bert_embeddings_weight BERT_SEP_TOKEN)
    else
      x1

/-- Claim C4 (counterexample to the claim as stated): with no pad boundaries
and batch size 1, position 0 is also overwritten (with the CLS embedding),
so not every position except the last is left unchanged: on [[1, 2, 3]] with
CLS embedding 9 and SEP embedding 8 the result is [[9, 2, 8]], not
[[1, 2, 8]]. -/
theorem c4_counterexample :
    fix_special_tokens 101 102 0 [[1, 2, 3]]
        (fun t => if t = 101 then 9 else if t = 102 then 8 else 0) none =
      [[9, 2, 8]] ∧
    ([[9, 2, 8]] : List (List ℕ)) ≠ [[1, 2, 8]] :=
  ⟨rfl, by decide⟩

/-- Claim C4 (amended): with no pad boundaries and a batch of exactly one
sequence, fix_special_tokens sets position 0 to the configured start (CLS)
embedding and the last position to the configured end (SEP) embedding, and
leaves every other position unchanged. -/
theorem c4_fix_special_tokens_batch1 {V : Type} (cls sep pad : ℕ)
    (sen : List V) (w : ℕ → V) :
    fix_special_tokens cls sep pad [sen] w none =
      [(sen.set 0 (w cls)).set (sen.length - 1) (w sep)] ∧
    (∀ j, j ≠ 0 → j ≠ sen.length - 1 →
      ((fix_special_tokens cls sep pad [sen] w none).getD 0 [])[j]? = sen[j]?) ∧
    (sen ≠ [] →
      ((fix_special_tokens cls sep pad [sen] w none).getD 0 [])[sen.length - 1]? =
        some (w sep)) ∧
    (1 < sen.length →
      ((fix_special_tokens cls sep pad [sen] w none).getD 0 [])[0]? = some (w cls)) := by
  have hmain : fix_special_tokens cls sep pad [sen] w none =
      [(sen.set 0 (w cls)).set (sen.length - 1) (w sep)] := by
    simp [fix_special_tokens]
  refine ⟨hmain, ?_, ?_, ?_⟩
  · intro j hj0 hjl
    rw [hmain]
    simp only [List.getD_cons_zero]
    rw [List.getElem?_set_ne (fun h => hjl h.symm),
      List.getElem?_set_ne (fun h => hj0 h.symm)]
  · intro hne
    rw [hmain]
    simp only [List.getD_cons_zero]
    refine List.getElem?_set_self ?_
    have : 0 < sen.length := List.length_pos.mpr hne
    simp
    omega
  · intro hlen
    rw [hmain]
    simp only [List.getD_cons_zero]
    rw [List.getElem?_set_ne (by omega)]
    refine List.getElem?_set_self ?_
    omega

/-- Witness for C4 at a concrete input: [[1, 2, 3]] with CLS embedding 9 and
SEP embedding 8; position 1 keeps its value 2, the last position becomes 8,
and position 0 becomes 9. -/
theorem c4_witness :
    ((fix_special_tokens 101 102 0 [[(1 : ℕ), 2, 3]]
        (fun t => if t = 101 then 9 else if t = 102 then 8 else 0) none).getD 0 [])[1]? =
      some 2 ∧
    ((fix_special_tokens 101 102 0 [[(1 : ℕ), 2, 3]]
        (fun t => if t = 101 then 9 else if t = 102 then 8 else 0) none).getD 0 [])[2]? =
      some 8 ∧
    ((fix_special_tokens 101 102 0 [[(1 : ℕ), 2, 3]]
        (fun t => if t = 101 then 9 else if t = 102 then 8 else 0) none).getD 0 [])[0]? =
      some 9 :=
  ⟨(c4_fix_special_tokens_batch1 101 102 0 [(1 : ℕ), 2, 3]
      (fun t => if t = 101 then 9 else if t = 102 then 8 else 0)).2.1 1
      (by decide) (by decide),
   (c4_fix_special_tokens_batch1 101 102 0 [(1 : ℕ), 2, 3]
      (fun t => if t = 101 then 9 else if t = 102 then 8 else 0)).2.2.1
      (by decide),
   (c4_fix_special_tokens_batch1 101 102 0 [(1 : ℕ), 2, 3]
      (fun t => if t = 101 then 9 else if t = 102 then 8 else 0)).2.2.2
      (by decide)⟩

/-- Claim C9: with no pad boundaries and more than one sequence in the
batch, fix_special_tokens only sets position 0 of every sequence to the
start (CLS) embedding; no position is set to the end or pad embedding and
every other position is unchanged. -/
theorem c9_fix_special_tokens_multibatch {V : Type} (cls sep pad : ℕ)
    (x_embeds : List (List V)) (w : ℕ → V) (h : 1 < x_embeds.length) :
    fix_special_tokens cls sep pad x_embeds w none =
      x_embeds.map (fun sen => sen.set 0 (w cls)) ∧
    (∀ (b : ℕ) (sen : List V), x_embeds[b]? = some sen →
      (fix_special_tokens cls sep pad x_embeds w none)[b]? =
          some (sen.set 0 (w cls)) ∧
        (∀ j, j ≠ 0 → (sen.set 0 (w cls))[j]? = sen[j]?) ∧
        (sen ≠ [] → (sen.set 0 (w cls))[0]? = some (w cls))) := by
  have hne : x_embeds.length ≠ 1 := by omega
  have hmain : fix_special_tokens cls sep pad x_embeds w none =
      x_embeds.map (fun sen => sen.set 0 (w cls)) := by
    simp [fix_special_tokens, hne]
  refine ⟨hmain, ?_⟩
  intro b sen hb
  refine ⟨?_, ?_, ?_⟩
  · rw [hmain, List.getElem?_map, hb]
    rfl
  · intro j hj
    rw [List.getElem?_set_ne (fun hc => hj hc.symm)]
  · intro hsen
    exact List.getElem?_set_self (List.length_pos.mpr hsen)

/-- Witness for C9 at a concrete input: a batch of two sequences with CLS
embedding 9; both rows get 9 at position 0 and keep position 1. -/
theorem c9_witness :
    fix_special_tokens 101 102 0 [[(1 : ℕ), 2], [3, 4]]
        (fun t => if t = 101 then 9 else if t = 102 then 8 else 0) none =
      [[9, 2], [9, 4]] ∧
    (([(3 : ℕ), 4].set 0 9)[1]? = some 4) :=
  ⟨(c9_fix_special_tokens_multibatch 101 102 0 [[(1 : ℕ), 2], [3, 4]]
      (fun t => if t = 101 then 9 else if t = 102 then 8 else 0) (by decide)).1,
   ((c9_fix_special_tokens_multibatch 101 102 0 [[(1 : ℕ), 2], [3, 4]]
      (fun t => if t = 101 then 9 else if t = 102 then 8 else 0) (by decide)).2 1
      [(3 : ℕ), 4] rfl).2.1 1 (by decide)⟩

/-- Shallow embedding of remove_padding (utilities.py lines 121-126): scan
the id sequence from the end backward; at the first index holding the SEP
token id, truncate the sequence to end with that index and stop; then decode
with the external tokenizer, modelled as an abstract decode function.  The
SEP constant comes from constants.py, which is not in the sources, so it is
an argument. -/
def remove_padding {α : Type} (BERT_SEP_TOKEN : ℕ) (decode : List ℕ → α)
    (ids : List ℕ) : α :=
  match (List.range ids.length).reverse.find?
      (fun i => ids.getD i 0 == BERT_SEP_TOKEN) with
  | some i => decode (ids.take (i + 1))
  | none => decode ids

/-- Claim C8: remove_padding truncates after the last occurrence of the end
token and decodes; on [5, 7, END, 9, 9] it decodes [5, 7, END], and with no
end token present it decodes the untouched full sequence. -/
theorem c8_remove_padding :
    (∀ (α : Type) (decode : List ℕ → α) (sep : ℕ), sep ≠ 5 → sep ≠ 7 → sep ≠ 9 →
      remove_padding sep decode [5, 7, sep, 9, 9] = decode [5, 7, sep]) ∧
    (∀ (α : Type) (decode : List ℕ → α) (sep : ℕ) (ids : List ℕ), sep ∉ ids →
      remove_padding sep decode ids = decode ids) := by
  constructor
  · intro α decode sep h5 h7 h9
    have hrev : (List.range ([5, 7, sep, 9, 9] : List ℕ).length).reverse =
        [4, 3, 2, 1, 0] := rfl
    have hp4 : (([5, 7, sep, 9, 9] : List ℕ).getD 4 0 == sep) = false := by
      simpa using (Ne.symm h9)
    have hp3 : (([5, 7, sep, 9, 9] : List ℕ).getD 3 0 == sep) = false := by
      simpa using (Ne.symm h9)
    have hp2 : (([5, 7, sep, 9, 9] : List ℕ).getD 2 0 == sep) = true := by
      simp
    simp only [remove_padding]
    rw [hrev]
    simp only [List.find?_cons, hp4, hp3, hp2, cond_false, cond_true]
    rfl
  · intro α decode sep ids h
    have hnone : (List.range ids.length).reverse.find?
        (fun i => ids.getD i 0 == sep) = none := by
      refine List.find?_eq_none.mpr ?_
      intro i hi
      rw [List.mem_reverse, List.mem_range] at hi
      have hmem : ids.getD i 0 ∈ ids := by
        rw [List.getD_eq_getElem?_getD, List.getElem?_eq_getElem hi]
        exact List.getElem_mem hi
      simp only [beq_eq_false_iff_ne, ne_eq, beq_iff_eq]
      intro hc
      rw [hc] at hmem
      exact h hmem
    simp only [remove_padding]
    rw [hnone]

/-- Witness for C8 at concrete inputs with SEP id 102 and decode the
identity: [5, 7, 102, 9, 9] is truncated to [5, 7, 102], and [1, 2, 3]
(without SEP) stays whole. -/
theorem c8_witness :
    remove_padding 102 (fun l => l) [5, 7, 102, 9, 9] = [5, 7, 102] ∧
    remove_padding 102 (fun l => l) [1, 2, 3] = [1, 2, 3] :=
  ⟨c8_remove_padding.1 (List ℕ) (fun l => l) 102 (by decide) (by decide) (by decide),
   c8_remove_padding.2 (List ℕ) (fun l => l) 102 [1, 2, 3] (by decide)⟩

/-- Number of parameters of get_closest_tokens that have no default value:
inputs_embeds, unused_tokens and embeddings_weight (utilities.py line 29). -/
def getClosestTokensRequiredParams : ℕ := 3

/-- Number of positional arguments supplied to get_closest_tokens at the
call inside get_perplexity (utilities.py line 98): x_embeds and
bert_embeddings_weight. -/
def getPerplexityCallArgs : ℕ := 2

/-- Claim C1 (code bug): the get_closest_tokens call inside get_perplexity
supplies fewer positional arguments than get_closest_tokens requires, so the
call binds bert_embeddings_weight to unused_tokens, leaves the required
embeddings_weight parameter unbound, and every call of get_perplexity raises
a TypeError before the described pipeline can run. -/
theorem c1_get_perplexity_call_underapplied :
    getPerplexityCallArgs < getClosestTokensRequiredParams := by decide

/-- A Python object held by a variable: a 2-d float tensor, a 3-d float
tensor, or a 2-d integer tensor. -/
inductive PyVal where
  | t2 (v : T2)
  | t3 (v : T3)
  | ti (v : List (List ℕ))

/-- A heap of tensor objects; references are positions in the list. -/
abbrev Store := List PyVal

/-- Imperative rendering of get_closest_tokens over an explicit heap, to
reason about mutation: repeat and the distance computation allocate fresh
tensors, d.clone() allocates a copy, and the slice assignment
d[:, :, unused_tokens] = 1e9 mutates only the clone in place (a set on the
clone's reference).  The returned references point at the sentinel-
overwritten distance matrix and the argmin index tensor. -/
noncomputable def get_closest_tokens_imp (σ : Store) (inRef : ℕ) (unused : List ℕ)
    (vocRef : ℕ) (gradsRef : Option ℕ) (metric : String) :
    Store × Except PyErr (ℕ × ℕ) :=
  match σ[inRef]? with
  | some (.t3 x) =>
    match σ[vocRef]? with
    | some (.t2 w) =>
      let grads : Option T3 :=
        match gradsRef with
        | some r =>
          match σ[r]? with
          | some (.t3 g) => some g
          | _ => none
        | none => none
      let vocabB := List.replicate x.length w
      let σ1 := σ ++ [.t3 vocabB]
      match distMatrix x vocabB grads metric with
      | .error e => (σ1, .error e)
      | .ok d0 =>
        let σ2 := σ1 ++ [.t3 d0]
        let dRef := σ2.length
        let σ3 := σ2 ++ [.t3 d0]
        let σ4 := σ3.set dRef (.t3 (d0.map fun m => m.map (sentinelRow unused)))
        let idxRef := σ4.length
        let σ5 := σ4 ++
          [.ti ((d0.map fun m => m.map (sentinelRow unused)).map fun m =>
            m.map argmin)]
        (σ5, .ok (dRef, idxRef))
    | _ => (σ, .error .typeError)
  | _ => (σ, .error .typeError)

theorem store_get_append (σ : Store) (l : Store) (r : ℕ) (hr : r < σ.length) :
    (σ ++ l)[r]? = σ[r]? := by
  rw [List.getElem?_append]
  simp [hr]

/-- Claim C10: get_closest_tokens never modifies its input tensors; in the
heap model every preexisting reference, in particular the inputs_embeds,
embeddings_weight and grads arguments, still holds its original value after
the call, because every written tensor lives at a freshly allocated
reference (the slice assignment hits the clone). -/
theorem c10_no_mutation (σ : Store) (inRef : ℕ) (unused : List ℕ)
    (vocRef : ℕ) (gradsRef : Option ℕ) (metric : String) (r : ℕ)
    (hr : r < σ.length) :
    ((get_closest_tokens_imp σ inRef unused vocRef gradsRef metric).1)[r]? = σ[r]? := by
  unfold get_closest_tokens_imp
  cases hin : σ[inRef]? with
  | none => rfl
  | some vin =>
    cases vin with
    | t2 v => rfl
    | ti v => rfl
    | t3 x =>
      cases hvoc : σ[vocRef]? with
      | none => rfl
      | some vv =>
        cases vv with
        | t3 v => rfl
        | ti v => rfl
        | t2 w =>
          cases hdm : distMatrix x (List.replicate x.length w)
              (match gradsRef with
                | some r =>
                  match σ[r]? with
                  | some (.t3 g) => some g
                  | _ => none
                | none => none) metric with
          | error e =>
            simp only [hdm]
            exact store_get_append σ _ r hr
          | ok d0 =>
            simp only [hdm]
            have h1 : r < (σ ++ [PyVal.t3 (List.replicate x.length w)]).length := by
              simp
              omega
            have h2 : r < ((σ ++ [PyVal.t3 (List.replicate x.length w)]) ++
                [PyVal.t3 d0]).length := by
              simp
              omega
            have h4 : r < ((((σ ++ [PyVal.t3 (List.replicate x.length w)]) ++
                [PyVal.t3 d0]) ++ [PyVal.t3 d0]).set
                ((σ ++ [PyVal.t3 (List.replicate x.length w)]) ++ [PyVal.t3 d0]).length
                (PyVal.t3 (d0.map fun m => m.map (sentinelRow unused)))).length := by
              simp
              omega
            rw [store_get_append _ _ r h4]
            rw [List.getElem?_set_ne (by simp; omega)]
            rw [store_get_append _ _ r h2, store_get_append _ _ r h1,
              store_get_append _ _ r hr]

/-- A concrete two-object heap: the input embeddings at reference 0 and the
vocabulary matrix at reference 1. -/
noncomputable def store0 : Store := [.t3 [[[(1 : ℝ)]]], .t2 [[(1 : ℝ)]]]

/-- Witness for C10 at a concrete heap: after running the imperative
get_closest_tokens with the l2 metric, reference 0 (the input embeddings)
still holds its original tensor. -/
theorem c10_witness :
    (0 < store0.length) ∧
    ((get_closest_tokens_imp store0 0 [] 1 none "l2").1)[0]? = store0[0]? :=
  ⟨by decide, c10_no_mutation store0 0 [] 1 none "l2" 0 (by decide)⟩

end Utilities
